import Mathlib

/-!
Verification of the `eth-contract-classifier` engine (src/index.js and its
historical variants).  The classification logic is embedded shallowly:

* ABI entries are opaque records carrying the JS `item.type` tag and an
  identity payload consumed by the external signature encoders
  (`web3.eth.abi.encodeFunctionSignature` / `encodeEventSignature`), which
  are collaborators per the spec and hence parameters of the embedding.
* The external EVM disassembler (`sevm` / `evm` packages) is likewise a
  parameter producing an opcode stream.
* JS strings are Lean `String`s; `String.prototype.includes` becomes a
  substring search, `replace("0x","")` a first-occurrence removal,
  `replace(/^0+/, '')` a `dropWhile`.
* JS `Array.prototype.sort` with a consistent comparator is modelled as the
  stable insertion sort `sortDescBy` (ES2019 requires sort stability, so the
  sorted order, including tie order, is exactly the stable descending one).
* The bundled registry ABIs (`./abis/*.json`) are not part of the sources
  under verification; the registry is a parameter, and theorems assume only
  the spec-stated data-model invariants about it (signature sets are
  duplicate-free, full sets nonempty).
-/

/-- An ABI entry: the JS code only inspects `item.type`; the rest of the
entry (name, parameter types, ...) is consumed opaquely by the external
signature encoders, here represented by the `payload` identity field. -/
structure AbiItem where
  type : String
  payload : String
deriving DecidableEq, Repr

/-- The external ABI signature encoder collaborator
(`web3.eth.abi.encodeFunctionSignature` / `encodeEventSignature`). -/
structure SigEncoder where
  encodeFunctionSignature : AbiItem → String
  encodeEventSignature : AbiItem → String

/-- One opcode of the disassembled stream, as produced by the external EVM
decoder: the mnemonic (`name` in the `evm` package, `mnemonic` in `sevm`)
and the push operand rendered as lowercase hex (JS `pushData.toString('hex')`). -/
structure Opcode where
  name : String
  pushData : String
deriving DecidableEq, Repr

/-- Remove the first occurrence of `pat` from `l`
(JS `String.prototype.replace` with a string pattern and empty replacement). -/
def stripFirst (pat : List Char) : List Char → List Char
  | [] => []
  | c :: rest =>
    if pat.isPrefixOf (c :: rest) then (c :: rest).drop pat.length
    else c :: stripFirst pat rest

/-- The selector normalization applied in `getSigs`:
`.replace("0x","").replace(/^0+/, '')`. -/
def normalizeSig (s : String) : String :=
  String.mk ((stripFirst "0x".data s.data).dropWhile (· == '0'))

/-- `getSigs(abi)` from src/index.js lines 43-49: selectors of the
`function` entries followed by topics of the `event` entries, each with the
`0x` prefix and leading zeros stripped. -/
def getSigs (enc : SigEncoder) (abi : List AbiItem) : List String :=
  ((abi.filter (fun item => item.type == "function")).map
      (fun item => normalizeSig (enc.encodeFunctionSignature item)))
    ++ ((abi.filter (fun item => item.type == "event")).map
      (fun item => normalizeSig (enc.encodeEventSignature item)))

/-- Substring test on character lists (semantics of JS
`String.prototype.includes`). -/
def containsSub : List Char → List Char → Bool
  | hay, sub =>
    if sub.isPrefixOf hay then true
    else
      match hay with
      | [] => false
      | _ :: t => containsSub t sub

/-- JS `s.includes(pat)`. -/
def jsIncludes (s pat : String) : Bool :=
  containsSub s.data pat.data

/-- `isABI(abi, bytecode)` from src/index.js lines 72-74: every extracted
selector occurs in the bytecode's hex text. -/
def isABI (enc : SigEncoder) (abi : List AbiItem) (bytecode : String) : Bool :=
  (getSigs enc abi).all (fun item => jsIncludes bytecode item)

/-- `sub` occurs as a contiguous substring of `s`. -/
def IsSubstr (sub s : String) : Prop :=
  ∃ pre post, s.data = pre ++ sub.data ++ post

theorem containsSub_iff (hay sub : List Char) :
    containsSub hay sub = true ↔ ∃ pre post, hay = pre ++ sub ++ post := by
  induction hay with
  | nil =>
    rw [containsSub]
    constructor
    · intro h
      split at h
      · rename_i hp
        refine ⟨[], [], ?_⟩
        have := List.isPrefixOf_iff_prefix.mp hp
        rcases this with ⟨t, ht⟩
        cases sub with
        | nil => simp
        | cons a l => simp at ht
      · simp at h
    · rintro ⟨pre, post, h⟩
      have : sub = [] := by
        cases pre <;> cases sub <;> simp_all
      subst this
      simp [List.isPrefixOf]
  | cons c t ih =>
    rw [containsSub]
    constructor
    · intro h
      split at h
      · rename_i hp
        rcases List.isPrefixOf_iff_prefix.mp hp with ⟨rest, hrest⟩
        exact ⟨[], rest, by simpa using hrest.symm⟩
      · rcases ih.mp h with ⟨pre, post, hpp⟩
        exact ⟨c :: pre, post, by simp [hpp]⟩
    · rintro ⟨pre, post, hpp⟩
      split
      · rfl
      · rename_i hnp
        cases pre with
        | nil =>
          exfalso
          apply hnp
          apply List.isPrefixOf_iff_prefix.mpr
          exact ⟨post, by simpa using hpp.symm⟩
        | cons p ps =>
          simp only [List.cons_append] at hpp
          injection hpp with h1 h2
          exact ih.mpr ⟨ps, post, h2⟩

/-- **C5**: `isABI(a, b)` returns true if and only if every selector in
`getSigs(a)` occurs as a substring of the bytecode's hex text — a textual
containment check. -/
theorem c5_isABI_iff_substrings (enc : SigEncoder) (abi : List AbiItem) (b : String) :
    isABI enc abi b = true ↔ ∀ sel ∈ getSigs enc abi, IsSubstr sel b := by
  unfold isABI
  rw [List.all_eq_true]
  constructor
  · intro h sel hsel
    have := h sel hsel
    exact (containsSub_iff b.data sel.data).mp this
  · intro h sel hsel
    exact (containsSub_iff b.data sel.data).mpr (h sel hsel)

/-- **C10**: on an ABI with no `function` or `event` entry, `getSigs` is
empty, so `isABI` is vacuously true for every bytecode. -/
theorem c10_isABI_vacuous (enc : SigEncoder) (abi : List AbiItem) (b : String)
    (h : ∀ item ∈ abi, item.type ≠ "function" ∧ item.type ≠ "event") :
    isABI enc abi b = true := by
  have hf : abi.filter (fun item => item.type == "function") = [] := by
    apply List.filter_eq_nil_iff.mpr
    intro item hitem
    simpa using (h item hitem).1
  have he : abi.filter (fun item => item.type == "event") = [] := by
    apply List.filter_eq_nil_iff.mpr
    intro item hitem
    simpa using (h item hitem).2
  unfold isABI getSigs
  rw [hf, he]
  rfl

/-- A concrete encoder used by the closed witnesses below. -/
def encW : SigEncoder :=
  ⟨fun item => "0x00ab" ++ item.payload, fun item => "0x0" ++ item.payload⟩

/-- Witness for C10: a constructor-only ABI is compatible with any bytecode. -/
theorem c10_witness :
    (∀ item ∈ [AbiItem.mk "constructor" "c"],
        item.type ≠ "function" ∧ item.type ≠ "event") ∧
      isABI encW [AbiItem.mk "constructor" "c"] "6001" = true :=
  ⟨by decide, c10_isABI_vacuous encW [AbiItem.mk "constructor" "c"] "6001" (by decide)⟩

/-- Lowercase hexadecimal digit. -/
def isLowerHex (c : Char) : Bool :=
  "0123456789abcdef".data.contains c

/-- The shape of every output of the real web3 signature encoders: a `0x`
prefix (followed by the hex digits of the selector or topic). -/
def HexOutput (s : String) : Prop :=
  ∃ t, s.data = '0' :: 'x' :: t

/-- An encoder all of whose outputs are `0x`-prefixed hex strings, as the
external web3 encoders guarantee. -/
def GoodEncoder (enc : SigEncoder) : Prop :=
  (∀ item, HexOutput (enc.encodeFunctionSignature item)) ∧
    (∀ item, HexOutput (enc.encodeEventSignature item))

theorem dropWhile_head_not (p : Char → Bool) (l : List Char) (a : Char)
    (h : (l.dropWhile p).head? = some a) : p a = false := by
  induction l with
  | nil => simp [List.dropWhile] at h
  | cons c t ih =>
    rw [List.dropWhile] at h
    split at h
    · exact ih h
    · rename_i hc
      simp at h
      subst h
      simpa using hc

theorem normalizeSig_head (s : String) (h : HexOutput s) (a : Char)
    (ha : (normalizeSig s).data.head? = some a) : a ≠ '0' := by
  rcases h with ⟨t, ht⟩
  unfold normalizeSig at ha
  rw [ht] at ha
  have hpre : stripFirst "0x".data ('0' :: 'x' :: t) = t := by
    rw [stripFirst]
    rw [if_pos]
    · rfl
    · show ("0x".data).isPrefixOf ('0' :: 'x' :: t) = true
      simp [List.isPrefixOf]
  rw [hpre] at ha
  have ha' : (t.dropWhile (· == '0')).head? = some a := ha
  have hfalse := dropWhile_head_not (· == '0') t a ha'
  intro hEq
  rw [hEq] at hfalse
  simp at hfalse

/-- **C6 (amended)**: every selector produced by the `getSigs` of
src/index.js carries no `0x` prefix and no leading zero nibble (its first
character, when present, is not `'0'`, hence in particular it cannot begin
with `0x`), assuming only that the external encoders emit `0x`-prefixed
hex strings.  The historical extractor variant in src/unnamed/part_000
strips only the `0x` prefix and can emit selectors with leading zero
nibbles — see `getSigsLegacy` and `c6_counterexample` below. -/
theorem c6_getSigs_normalized (enc : SigEncoder) (abi : List AbiItem)
    (h : GoodEncoder enc) :
    ∀ sel ∈ getSigs enc abi,
      sel.data.head? ≠ some '0' ∧ ¬ ('0' :: 'x' :: [] <+: sel.data) := by
  intro sel hsel
  have hshape : ∃ s, HexOutput s ∧ sel = normalizeSig s := by
    unfold getSigs at hsel
    rcases List.mem_append.mp hsel with hmem | hmem
    · rcases List.mem_map.mp hmem with ⟨item, _, hitem⟩
      exact ⟨enc.encodeFunctionSignature item, h.1 item, hitem.symm⟩
    · rcases List.mem_map.mp hmem with ⟨item, _, hitem⟩
      exact ⟨enc.encodeEventSignature item, h.2 item, hitem.symm⟩
  rcases hshape with ⟨s, hs, rfl⟩
  constructor
  · intro hhead
    exact normalizeSig_head s hs '0' hhead rfl
  · rintro ⟨rest, hrest⟩
    have hhead : (normalizeSig s).data.head? = some '0' := by
      rw [← hrest]
      rfl
    exact normalizeSig_head s hs '0' hhead rfl

/-- Witness for the amended C6 at a concrete encoder and ABI. -/
theorem c6_witness :
    GoodEncoder encW ∧
      ∀ sel ∈ getSigs encW [AbiItem.mk "function" "ab12"],
        sel.data.head? ≠ some '0' ∧ ¬ ('0' :: 'x' :: [] <+: sel.data) := by
  have hg : GoodEncoder encW := by
    constructor
    · intro item
      exact ⟨("00ab" ++ item.payload).data, rfl⟩
    · intro item
      exact ⟨("0" ++ item.payload).data, rfl⟩
  exact ⟨hg, c6_getSigs_normalized encW [AbiItem.mk "function" "ab12"] hg⟩

/-- **C7**: `getSigs` is order-independent: a permutation of the ABI's
entries yields the same SignatureSet (the same `Finset` of selectors, with
duplicates collapsed). -/
theorem c7_getSigs_perm (enc : SigEncoder) (a b : List AbiItem)
    (h : a.Perm b) :
    (getSigs enc a).toFinset = (getSigs enc b).toFinset := by
  have hp : (getSigs enc a).Perm (getSigs enc b) := by
    unfold getSigs
    exact List.Perm.append (List.Perm.map _ (List.Perm.filter _ h))
      (List.Perm.map _ (List.Perm.filter _ h))
  apply Finset.ext
  intro x
  simp only [List.mem_toFinset]
  exact hp.mem_iff

/-- Witness for C7: swapping two ABI entries leaves the selector set
unchanged. -/
theorem c7_witness :
    (getSigs encW [AbiItem.mk "function" "a", AbiItem.mk "event" "b"]).toFinset
      = (getSigs encW [AbiItem.mk "event" "b", AbiItem.mk "function" "a"]).toFinset :=
  c7_getSigs_perm encW _ _ (List.Perm.swap _ _ _)

/-- Stable insertion of `x` in front of the first element whose key is not
above `key x`: inserting elements left-to-right reproduces exactly the
ES2019 `Array.prototype.sort` result for the descending comparators used in
the source (`(a, b) => b.k - a.k`), including tie order, since ES2019
requires sort stability. -/
def insertDescBy {X K : Type} [LinearOrder K] (key : X → K) (x : X) :
    List X → List X
  | [] => [x]
  | y :: ys => if key y ≤ key x then x :: y :: ys else y :: insertDescBy key x ys

/-- Stable sort into non-increasing key order (denotation of the JS
`percents.sort(...)` / `points.sort(...)` calls). -/
def sortDescBy {X K : Type} [LinearOrder K] (key : X → K) : List X → List X
  | [] => []
  | x :: xs => insertDescBy key x (sortDescBy key xs)

theorem insertDescBy_perm {X K : Type} [LinearOrder K] (key : X → K) (x : X)
    (l : List X) : (insertDescBy key x l).Perm (x :: l) := by
  induction l with
  | nil => exact List.Perm.refl _
  | cons y ys ih =>
    rw [insertDescBy]
    split
    · exact List.Perm.refl _
    · exact (ih.cons y).trans (List.Perm.swap x y ys)

theorem sortDescBy_perm {X K : Type} [LinearOrder K] (key : X → K)
    (l : List X) : (sortDescBy key l).Perm l := by
  induction l with
  | nil => exact List.Perm.refl _
  | cons x xs ih =>
    rw [sortDescBy]
    exact (insertDescBy_perm key x _).trans (ih.cons x)

theorem sortDescBy_eq_nil {X K : Type} [LinearOrder K] (key : X → K)
    (l : List X) (hl : sortDescBy key l = []) : l = [] := by
  have hp := sortDescBy_perm key l
  rw [hl] at hp
  exact hp.symm.eq_nil

/-- The first element of the descending sort (`sorted[0]` in the JS code)
is an element of the list carrying the (weakly) greatest key. -/
theorem sortDescBy_head {X K : Type} [LinearOrder K] (key : X → K) :
    ∀ (l : List X) (h : X), (sortDescBy key l).head? = some h →
      h ∈ l ∧ ∀ y ∈ l, key y ≤ key h := by
  intro l
  induction l with
  | nil =>
    intro h hh
    simp [sortDescBy] at hh
  | cons x xs ih =>
    intro h hh
    rw [sortDescBy] at hh
    cases hS : sortDescBy key xs with
    | nil =>
      rw [hS] at hh
      have hxs : xs = [] := sortDescBy_eq_nil key xs hS
      subst hxs
      simp [insertDescBy] at hh
      subst hh
      refine ⟨List.mem_singleton_self x, ?_⟩
      intro y hy
      rcases List.mem_singleton.mp hy with rfl
      exact le_refl _
    | cons s S =>
      rw [hS] at hh
      have ihs := ih s (by rw [hS]; rfl)
      rcases ihs with ⟨hmem, hmax⟩
      rw [insertDescBy] at hh
      by_cases hle : key s ≤ key x
      · rw [if_pos hle] at hh
        simp only [List.head?_cons, Option.some.injEq] at hh
        subst hh
        refine ⟨List.mem_cons_self x xs, ?_⟩
        intro y hy
        rcases List.mem_cons.mp hy with rfl | hy
        · exact le_refl _
        · exact le_trans (hmax y hy) hle
      · rw [if_neg hle] at hh
        simp only [List.head?_cons, Option.some.injEq] at hh
        subst hh
        refine ⟨List.mem_cons_of_mem x hmem, ?_⟩
        intro y hy
        rcases List.mem_cons.mp hy with rfl | hy
        · exact le_of_lt (lt_of_not_le hle)
        · exact hmax y hy

/-- JS `String.prototype.toUpperCase`, restricted to the ASCII registry
keys it is applied to. -/
def jsToUpper (s : String) : String :=
  String.mk (s.data.map Char.toUpper)

/-- One registered standard: its key in the registry objects and the ABIs
`abisMin[key]` / `abisMax[key]`.  The bundled `./abis/*.json` fixtures are
not among the sources, so the registry is kept as a parameter; iteration
order is the JS `Object.keys` insertion order. -/
structure StdSpec where
  key : String
  minAbi : List AbiItem
  maxAbi : List AbiItem
deriving DecidableEq, Repr

/-- The standard qualifies: every mandatory (`min`) selector is among the
candidate ABI's selectors. -/
def Qualifies (enc : SigEncoder) (abi : List AbiItem) (s : StdSpec) : Prop :=
  ∀ sel ∈ getSigs enc s.minAbi, sel ∈ getSigs enc abi

/-- The claim's score: the number of selectors of the standard's `max` set
contained in `getSigs(abi)` (a set cardinality). -/
def maxMatchScore (enc : SigEncoder) (abi : List AbiItem) (s : StdSpec) : ℕ :=
  ((getSigs enc s.maxAbi).toFinset ∩ (getSigs enc abi).toFinset).card

/-- `getErcByAbi(abi)` from src/index.js lines 191-202 (min-gate +
max-score mode): keep the standards whose whole `min` selector list is
included in the candidate's selectors, give each the count of `max`
selectors present, sort descending by count and return the top key
upper-cased; `undefined` when no standard passes the gate. -/
def getErcByAbi (enc : SigEncoder) (reg : List StdSpec)
    (abi : List AbiItem) : Option String :=
  let points :=
    (reg.filter (fun s =>
        (getSigs enc s.minAbi).all (fun item => (getSigs enc abi).contains item))).map
      (fun s =>
        (s.key, ((getSigs enc s.maxAbi).filter
            (fun item => (getSigs enc abi).contains item)).length))
  if 0 < points.length then
    ((sortDescBy (fun e => e.2) points).head?).map (fun e => jsToUpper e.1)
  else none

theorem filter_contains_length_eq (l cand : List String) (hnd : l.Nodup) :
    (l.filter (fun item => cand.contains item)).length
      = (l.toFinset ∩ cand.toFinset).card := by
  have h1 : (l.filter (fun item => cand.contains item)).Nodup :=
    List.Nodup.filter _ hnd
  rw [← List.toFinset_card_of_nodup h1]
  congr 1
  apply Finset.ext
  intro a
  simp [List.mem_toFinset, List.mem_filter, List.elem_iff]

theorem qualifies_iff_gate (enc : SigEncoder) (abi : List AbiItem) (s : StdSpec) :
    ((getSigs enc s.minAbi).all (fun item => (getSigs enc abi).contains item) = true)
      ↔ Qualifies enc abi s := by
  rw [List.all_eq_true]
  unfold Qualifies
  constructor
  · intro h sel hsel
    exact List.elem_iff.mp (h sel hsel)
  · intro h sel hsel
    exact List.elem_iff.mpr (h sel hsel)

/-- **C1**: `getErcByAbi` returns `undefined` exactly when no standard's
`min` set is contained in the candidate's selector set; otherwise it
returns the upper-cased key of a qualifying standard whose score — the
number of its `max` selectors present in `getSigs(abi)` — is greatest among
the qualifying standards.  (The registry `max` signature lists are assumed
duplicate-free, as the spec's data model states.) -/
theorem c1_getErcByAbi_spec (enc : SigEncoder) (reg : List StdSpec)
    (abi : List AbiItem)
    (hreg : ∀ s ∈ reg, (getSigs enc s.maxAbi).Nodup) :
    (getErcByAbi enc reg abi = none ↔ ∀ s ∈ reg, ¬ Qualifies enc abi s) ∧
      (∀ lab, getErcByAbi enc reg abi = some lab →
        ∃ s ∈ reg, Qualifies enc abi s ∧ lab = jsToUpper s.key ∧
          ∀ s' ∈ reg, Qualifies enc abi s' →
            maxMatchScore enc abi s' ≤ maxMatchScore enc abi s) := by
  classical
  unfold getErcByAbi
  set gate := fun s : StdSpec =>
    (getSigs enc s.minAbi).all (fun item => (getSigs enc abi).contains item) with hgate
  set f := fun s : StdSpec =>
    (s.key, ((getSigs enc s.maxAbi).filter
        (fun item => (getSigs enc abi).contains item)).length) with hf
  set points := (reg.filter gate).map f with hpoints
  constructor
  · constructor
    · intro hnone s hs hq
      by_cases hlen : 0 < points.length
      · rw [if_pos hlen] at hnone
        rcases hcase : (sortDescBy (fun e : String × ℕ => e.2) points).head? with _ | e
        · have : sortDescBy (fun e : String × ℕ => e.2) points = [] := by
            cases hsort : sortDescBy (fun e : String × ℕ => e.2) points
            · rfl
            · rw [hsort] at hcase; simp at hcase
          have hpe : points = [] := sortDescBy_eq_nil _ _ this
          rw [hpe] at hlen
          simp at hlen
        · rw [hcase] at hnone
          simp at hnone
      · rw [if_neg hlen] at hnone
        have hpe : points = [] := by
          cases hp : points
          · rfl
          · rw [hp] at hlen; simp at hlen
        have : s ∈ reg.filter gate := by
          rw [List.mem_filter]
          exact ⟨hs, (qualifies_iff_gate enc abi s).mpr hq⟩
        rw [hpoints] at hpe
        rw [List.map_eq_nil_iff] at hpe
        rw [hpe] at this
        simp at this
    · intro hnoq
      have hfe : reg.filter gate = [] := by
        apply List.filter_eq_nil_iff.mpr
        intro s hs hgs
        exact hnoq s hs ((qualifies_iff_gate enc abi s).mp hgs)
      have hpe : points = [] := by rw [hpoints, hfe]; rfl
      rw [hpe]
      simp
  · intro lab hsome
    by_cases hlen : 0 < points.length
    · rw [if_pos hlen] at hsome
      rcases hcase : (sortDescBy (fun e : String × ℕ => e.2) points).head? with _ | e
      · rw [hcase] at hsome; simp at hsome
      · rw [hcase] at hsome
        simp only [Option.map_some', Option.some.injEq] at hsome
        have hhead := sortDescBy_head (fun e : String × ℕ => e.2) points e hcase
        rcases hhead with ⟨hmem, hmax⟩
        rw [hpoints] at hmem
        rcases List.mem_map.mp hmem with ⟨s, hsf, hse⟩
        rcases List.mem_filter.mp hsf with ⟨hsreg, hsgate⟩
        refine ⟨s, hsreg, (qualifies_iff_gate enc abi s).mp hsgate, ?_, ?_⟩
        · rw [← hsome, ← hse]
        · intro s' hs' hq'
          have hmemf : f s' ∈ points := by
            rw [hpoints]
            exact List.mem_map_of_mem f (List.mem_filter.mpr
              ⟨hs', (qualifies_iff_gate enc abi s').mpr hq'⟩)
          have hle := hmax (f s') hmemf
          have hcnt : (f s').2 = maxMatchScore enc abi s' := by
            rw [hf]
            exact filter_contains_length_eq _ _ (hreg s' hs')
          have hcnt2 : e.2 = maxMatchScore enc abi s := by
            rw [← hse, hf]
            exact filter_contains_length_eq _ _ (hreg s hsreg)
          rw [← hcnt, ← hcnt2]
          exact hle
    · rw [if_neg hlen] at hsome
      simp at hsome

/-- Witness for C1 at a concrete encoder, registry and ABI. -/
theorem c1_witness :
    (∀ s ∈ [StdSpec.mk "erc20" [AbiItem.mk "function" "t"]
          [AbiItem.mk "function" "t", AbiItem.mk "function" "u"],
        StdSpec.mk "erc721" [AbiItem.mk "function" "v"] [AbiItem.mk "function" "v"]],
        (getSigs encW s.maxAbi).Nodup) ∧
      ((getErcByAbi encW
            [StdSpec.mk "erc20" [AbiItem.mk "function" "t"]
                [AbiItem.mk "function" "t", AbiItem.mk "function" "u"],
              StdSpec.mk "erc721" [AbiItem.mk "function" "v"] [AbiItem.mk "function" "v"]]
            [AbiItem.mk "function" "t", AbiItem.mk "function" "u"] = none ↔
          ∀ s ∈ [StdSpec.mk "erc20" [AbiItem.mk "function" "t"]
              [AbiItem.mk "function" "t", AbiItem.mk "function" "u"],
            StdSpec.mk "erc721" [AbiItem.mk "function" "v"] [AbiItem.mk "function" "v"]],
            ¬ Qualifies encW [AbiItem.mk "function" "t", AbiItem.mk "function" "u"] s) ∧
        (∀ lab, getErcByAbi encW
            [StdSpec.mk "erc20" [AbiItem.mk "function" "t"]
                [AbiItem.mk "function" "t", AbiItem.mk "function" "u"],
              StdSpec.mk "erc721" [AbiItem.mk "function" "v"] [AbiItem.mk "function" "v"]]
            [AbiItem.mk "function" "t", AbiItem.mk "function" "u"] = some lab →
          ∃ s ∈ [StdSpec.mk "erc20" [AbiItem.mk "function" "t"]
              [AbiItem.mk "function" "t", AbiItem.mk "function" "u"],
            StdSpec.mk "erc721" [AbiItem.mk "function" "v"] [AbiItem.mk "function" "v"]],
            Qualifies encW [AbiItem.mk "function" "t", AbiItem.mk "function" "u"] s ∧
              lab = jsToUpper s.key ∧
              ∀ s' ∈ [StdSpec.mk "erc20" [AbiItem.mk "function" "t"]
                  [AbiItem.mk "function" "t", AbiItem.mk "function" "u"],
                StdSpec.mk "erc721" [AbiItem.mk "function" "v"] [AbiItem.mk "function" "v"]],
                Qualifies encW [AbiItem.mk "function" "t", AbiItem.mk "function" "u"] s' →
                  maxMatchScore encW [AbiItem.mk "function" "t", AbiItem.mk "function" "u"] s' ≤
                    maxMatchScore encW [AbiItem.mk "function" "t", AbiItem.mk "function" "u"] s)) :=
  ⟨by decide, c1_getErcByAbi_spec encW _ _ (by decide)⟩

/-- The sort key of the JS comparator
`(a, b) => a.percent === b.percent ? b.checks - a.checks : b.percent - a.percent`:
descending lexicographic on (percent, checks).  Percent arithmetic is
carried in `ℚ`; for the small integer counts involved the IEEE doubles of
the JS code represent these fractions with enough precision that all the
comparisons performed agree with the exact rational ones. -/
def percentKey (e : String × ℚ × ℚ) : Lex (ℚ × ℚ) :=
  toLex (e.2.1, e.2.2)

/-- `getErcByAbiPercent(abi, percent)` from src/index.js lines 142-156:
per full-tier standard, `checks` is the length of its selector list and
`percent` is `100 * (candidate selectors lying in the standard's list) / checks`
counted over the candidate's selector *list*; the entries are sorted
descending by (percent, checks) and the top key is returned upper-cased
when its percent reaches the threshold.  The registry is passed as the list
of `(key, abis[key])` pairs in `Object.keys` order. -/
def getErcByAbiPercent (enc : SigEncoder) (reg : List (String × List AbiItem))
    (abi : List AbiItem) (threshold : ℚ) : Option String :=
  match (sortDescBy percentKey (reg.map (fun s =>
      (s.1,
        100 * (((getSigs enc abi).filter
            (fun item => (getSigs enc s.2).contains item)).length : ℚ)
          / ((getSigs enc s.2).length : ℚ),
        ((getSigs enc s.2).length : ℚ))))).head? with
  | some e => if threshold ≤ e.2.1 then some (jsToUpper e.1) else none
  | none => none

/-- The percent of claim C2, following the spec's words: a set
intersection, `100 × |Extractor(abi) ∩ full(standard)| / |full(standard)|`. -/
def specPercentScore (enc : SigEncoder) (abi fullA : List AbiItem) : ℚ :=
  100 * (((getSigs enc abi).toFinset ∩ (getSigs enc fullA).toFinset).card : ℚ)
    / ((getSigs enc fullA).toFinset.card : ℚ)

/-- The classifier claim C2 describes, following the spec's words: compute
`specPercentScore` per standard, pick the highest percent with ties broken
toward the larger full set, return the label when the percent reaches the
threshold. -/
def specGetErcByAbiPercent (enc : SigEncoder) (reg : List (String × List AbiItem))
    (abi : List AbiItem) (threshold : ℚ) : Option String :=
  match (sortDescBy percentKey (reg.map (fun s =>
      (s.1, specPercentScore enc abi s.2,
        ((getSigs enc s.2).toFinset.card : ℚ))))).head? with
  | some e => if threshold ≤ e.2.1 then some (jsToUpper e.1) else none
  | none => none

/-- Counterexample to C2 as stated: the code counts candidate selectors
with multiplicity, not as a set intersection.  With a candidate ABI that
lists the same function twice, the code computes a 200% match against a
one-selector standard and accepts it at threshold 150, while the claim's
set-intersection percent is 100 and demands rejection.  The registry here
is duplicate-free and nonempty, so the divergence is due solely to the
candidate-side multiset counting. -/
theorem c2_counterexample :
    getErcByAbiPercent encW
        [("erc1155", [AbiItem.mk "function" "a1"]),
          ("erc721", [AbiItem.mk "function" "b1"]),
          ("erc20", [AbiItem.mk "function" "c1"])]
        [AbiItem.mk "function" "a1", AbiItem.mk "function" "a1"] 150
      = some "ERC1155" ∧
    specGetErcByAbiPercent encW
        [("erc1155", [AbiItem.mk "function" "a1"]),
          ("erc721", [AbiItem.mk "function" "b1"]),
          ("erc20", [AbiItem.mk "function" "c1"])]
        [AbiItem.mk "function" "a1", AbiItem.mk "function" "a1"] 150
      = none ∧
    (∀ s ∈ [("erc1155", [AbiItem.mk "function" "a1"]),
          ("erc721", [AbiItem.mk "function" "b1"]),
          ("erc20", [AbiItem.mk "function" "c1"])],
        (getSigs encW s.2).Nodup ∧ getSigs encW s.2 ≠ []) := by
  have h1 : getSigs encW [AbiItem.mk "function" "a1"] = ["aba1"] := rfl
  have h2 : getSigs encW [AbiItem.mk "function" "b1"] = ["abb1"] := rfl
  have h3 : getSigs encW [AbiItem.mk "function" "c1"] = ["abc1"] := rfl
  have ha : getSigs encW [AbiItem.mk "function" "a1", AbiItem.mk "function" "a1"]
      = ["aba1", "aba1"] := rfl
  refine ⟨?_, ?_, by decide⟩
  · unfold getErcByAbiPercent
    rw [List.map_cons, List.map_cons, List.map_cons, List.map_nil]
    rw [h1, h2, h3, ha]
    norm_num +decide [sortDescBy, insertDescBy, percentKey, Prod.Lex.le_iff, jsToUpper]
  · unfold specGetErcByAbiPercent specPercentScore
    rw [List.map_cons, List.map_cons, List.map_cons, List.map_nil]
    rw [h1, h2, h3, ha]
    have hc1 : ((["aba1", "aba1"] : List String).toFinset
        ∩ (["aba1"] : List String).toFinset).card = 1 := rfl
    have hc2 : ((["aba1", "aba1"] : List String).toFinset
        ∩ (["abb1"] : List String).toFinset).card = 0 := rfl
    have hc3 : ((["aba1", "aba1"] : List String).toFinset
        ∩ (["abc1"] : List String).toFinset).card = 0 := rfl
    have hd1 : ((["aba1"] : List String).toFinset).card = 1 := rfl
    have hd2 : ((["abb1"] : List String).toFinset).card = 1 := rfl
    have hd3 : ((["abc1"] : List String).toFinset).card = 1 := rfl
    rw [hc1, hc2, hc3, hd1, hd2, hd3]
    norm_num +decide [sortDescBy, insertDescBy, percentKey, Prod.Lex.le_iff]

/-- **C2 (amended)**: when the candidate's extracted selector list is
duplicate-free (and the registry's full signature lists are duplicate-free
and nonempty, as the spec's data model states), `getErcByAbiPercent`
computes exactly the claim's set-intersection percent
`100 × |Extractor(a) ∩ full(standard)| / |full(standard)|` per standard,
picks the highest percent breaking ties toward the larger full set, and
returns that standard's upper-cased label iff its percent reaches the
threshold; for a candidate with duplicate selectors the code instead
counts each occurrence (multiset counting), as the counterexample shows. -/
theorem c2_getErcByAbiPercent_amended (enc : SigEncoder)
    (reg : List (String × List AbiItem)) (abi : List AbiItem) (t : ℚ)
    (hcand : (getSigs enc abi).Nodup)
    (hfull : ∀ s ∈ reg, (getSigs enc s.2).Nodup ∧ getSigs enc s.2 ≠ []) :
    getErcByAbiPercent enc reg abi t = specGetErcByAbiPercent enc reg abi t := by
  unfold getErcByAbiPercent specGetErcByAbiPercent
  have hmap : reg.map (fun s =>
      (s.1,
        100 * (((getSigs enc abi).filter
            (fun item => (getSigs enc s.2).contains item)).length : ℚ)
          / ((getSigs enc s.2).length : ℚ),
        ((getSigs enc s.2).length : ℚ)))
      = reg.map (fun s =>
        (s.1, specPercentScore enc abi s.2,
          ((getSigs enc s.2).toFinset.card : ℚ))) := by
    apply List.map_congr_left
    intro s hs
    rcases hfull s hs with ⟨hnd, _⟩
    have hcount := filter_contains_length_eq (getSigs enc abi) (getSigs enc s.2) hcand
    have hchecks : (getSigs enc s.2).toFinset.card = (getSigs enc s.2).length :=
      List.toFinset_card_of_nodup hnd
    unfold specPercentScore
    rw [hcount, hchecks]
  rw [hmap]

/-- Witness for the amended C2 at a concrete duplicate-free instance. -/
theorem c2_witness :
    ((getSigs encW [AbiItem.mk "function" "a1"]).Nodup ∧
      (∀ s ∈ [("erc1155", [AbiItem.mk "function" "a1"]),
            ("erc721", [AbiItem.mk "function" "b1"]),
            ("erc20", [AbiItem.mk "function" "c1"])],
          (getSigs encW s.2).Nodup ∧ getSigs encW s.2 ≠ [])) ∧
      getErcByAbiPercent encW
          [("erc1155", [AbiItem.mk "function" "a1"]),
            ("erc721", [AbiItem.mk "function" "b1"]),
            ("erc20", [AbiItem.mk "function" "c1"])]
          [AbiItem.mk "function" "a1"] 100
        = specGetErcByAbiPercent encW
          [("erc1155", [AbiItem.mk "function" "a1"]),
            ("erc721", [AbiItem.mk "function" "b1"]),
            ("erc20", [AbiItem.mk "function" "c1"])]
          [AbiItem.mk "function" "a1"] 100 :=
  ⟨⟨by decide, by decide⟩,
    c2_getErcByAbiPercent_amended encW _ _ 100 (by decide) (by decide)⟩

/-- `isDelegateCall(bytecode)` from src/index.js lines 83-86: the external
disassembler's opcode stream contains a `DELEGATECALL` instruction. -/
def isDelegateCall (decode : String → List Opcode) (b : String) : Bool :=
  ((decode b).find? (fun x => x.name == "DELEGATECALL")).isSome

/-- `getErcByBytecode(bytecode)` from src/index.js lines 210-221: standards
whose whole `min` selector list occurs in the bytecode text are scored by
the number of `max` selectors occurring in it; with no gated standard the
result falls back to `"DELEGATECALL"` when the opcode stream contains a
`DELEGATECALL`, else `undefined`. -/
def getErcByBytecode (decode : String → List Opcode) (enc : SigEncoder)
    (reg : List StdSpec) (b : String) : Option String :=
  let points := (reg.filter (fun s => isABI enc s.minAbi b)).map
    (fun s =>
      (s.key, ((getSigs enc s.maxAbi).filter (fun item => jsIncludes b item)).length))
  if 0 < points.length then
    ((sortDescBy (fun e => e.2) points).head?).map (fun e => jsToUpper e.1)
  else
    if isDelegateCall decode b then some "DELEGATECALL" else none

/-- **C3**: when no standard matches — no standard's whole `min` selector
list occurs as substrings of the bytecode — `getErcByBytecode` returns the
proxy finding `"DELEGATECALL"` exactly when the opcode stream contains a
`DELEGATECALL` instruction, and the absence value `undefined` (no
exception) when it does not. -/
theorem c3_getErcByBytecode_fallback (decode : String → List Opcode)
    (enc : SigEncoder) (reg : List StdSpec) (b : String)
    (hnm : ∀ s ∈ reg, ¬ ∀ sel ∈ getSigs enc s.minAbi, IsSubstr sel b) :
    ((∃ op ∈ decode b, op.name = "DELEGATECALL") →
        getErcByBytecode decode enc reg b = some "DELEGATECALL") ∧
      ((∀ op ∈ decode b, op.name ≠ "DELEGATECALL") →
        getErcByBytecode decode enc reg b = none) := by
  have hfe : reg.filter (fun s => isABI enc s.minAbi b) = [] := by
    apply List.filter_eq_nil_iff.mpr
    intro s hs hcompat
    exact hnm s hs ((c5_isABI_iff_substrings enc s.minAbi b).mp hcompat)
  have hbranch : getErcByBytecode decode enc reg b
      = (if isDelegateCall decode b then some "DELEGATECALL" else none) := by
    unfold getErcByBytecode
    rw [hfe]
    rfl
  constructor
  · intro hdc
    rw [hbranch]
    have : isDelegateCall decode b = true := by
      unfold isDelegateCall
      rw [List.find?_isSome]
      rcases hdc with ⟨op, hop, hname⟩
      exact ⟨op, hop, by simpa using hname⟩
    rw [this]
    rfl
  · intro hndc
    rw [hbranch]
    have : isDelegateCall decode b = false := by
      unfold isDelegateCall
      cases hfind : (decode b).find? (fun x => x.name == "DELEGATECALL") with
      | none => rfl
      | some op =>
        have hmem := List.mem_of_find?_eq_some hfind
        have hp := List.find?_some hfind
        exact absurd (by simpa using hp) (hndc op hmem)
    rw [this]
    rfl

/-- Witness for C3 at a concrete decoder, registry and bytecode. -/
theorem c3_witness :
    (∀ s ∈ [StdSpec.mk "erc20" [AbiItem.mk "function" "t"] [AbiItem.mk "function" "t"]],
        ¬ ∀ sel ∈ getSigs encW s.minAbi, IsSubstr sel "6001") ∧
      ((∃ op ∈ (fun _ : String => [Opcode.mk "DELEGATECALL" ""]) "6001",
            op.name = "DELEGATECALL") →
          getErcByBytecode (fun _ => [Opcode.mk "DELEGATECALL" ""]) encW
            [StdSpec.mk "erc20" [AbiItem.mk "function" "t"] [AbiItem.mk "function" "t"]]
            "6001" = some "DELEGATECALL") ∧
      ((∀ op ∈ (fun _ : String => [Opcode.mk "DELEGATECALL" ""]) "6001",
            op.name ≠ "DELEGATECALL") →
          getErcByBytecode (fun _ => [Opcode.mk "DELEGATECALL" ""]) encW
            [StdSpec.mk "erc20" [AbiItem.mk "function" "t"] [AbiItem.mk "function" "t"]]
            "6001" = none) := by
  have hnm : ∀ s ∈ [StdSpec.mk "erc20" [AbiItem.mk "function" "t"]
      [AbiItem.mk "function" "t"]],
      ¬ ∀ sel ∈ getSigs encW s.minAbi, IsSubstr sel "6001" := by
    intro s hs hall
    rcases List.mem_singleton.mp hs with rfl
    have hsub := hall "abt" (by decide)
    have : containsSub "6001".data "abt".data = true :=
      (containsSub_iff "6001".data "abt".data).mpr hsub
    exact absurd this (by decide)
  exact ⟨hnm, c3_getErcByBytecode_fallback (fun _ => [Opcode.mk "DELEGATECALL" ""])
    encW [StdSpec.mk "erc20" [AbiItem.mk "function" "t"] [AbiItem.mk "function" "t"]]
    "6001" hnm⟩

/-- The inline single-entry ABI from `getProxyStatus`
(`{"inputs":[],"name":"implementation","outputs":[{"type":"address"}],
"stateMutability":"view","type":"function"}`); the `payload` field stands
for the entry as consumed by the external encoder. -/
def implementationAbi : List AbiItem :=
  [AbiItem.mk "function" "implementation()"]

/-- `getProxyStatus(bytecode)` from src/index.js lines 271-289: with a
`DELEGATECALL` in the opcode stream, a found `PUSH20`'s operand is reported
as the delegate target; otherwise the bytecode is compatibility-checked
against the single `implementation()` view ABI (`"IMPLEMENTATION"`), else
the generic `"DELEGATECALL"`; without `DELEGATECALL` the result is
`undefined`. -/
def getProxyStatus (decode : String → List Opcode) (enc : SigEncoder)
    (b : String) : Option String :=
  let opcodes := decode b
  if ((opcodes.find? (fun item => item.name == "DELEGATECALL")).isSome) then
    match opcodes.find? (fun item => item.name == "PUSH20") with
    | some push20 => some ("DELEGATECALL to 0x" ++ push20.pushData)
    | none =>
      if isABI enc implementationAbi b then some "IMPLEMENTATION"
      else some "DELEGATECALL"
  else none

/-- **C4**: `getProxyStatus` realizes the four-outcome priority machine:
with `DELEGATECALL` present and a `PUSH20` found, the finding names the
first `PUSH20`'s pushed operand as the delegate target; with `DELEGATECALL`
but no `PUSH20`, the `implementation()` compatibility check decides between
the implementation-pattern finding and the generic delegatecall finding;
without any `DELEGATECALL` opcode the result is `undefined` (not a proxy). -/
theorem c4_getProxyStatus_machine (decode : String → List Opcode)
    (enc : SigEncoder) (b : String) :
    ((∃ op ∈ decode b, op.name = "DELEGATECALL") →
        (∀ p, (decode b).find? (fun item => item.name == "PUSH20") = some p →
          getProxyStatus decode enc b = some ("DELEGATECALL to 0x" ++ p.pushData)) ∧
        ((∀ op ∈ decode b, op.name ≠ "PUSH20") →
          (isABI enc implementationAbi b = true →
            getProxyStatus decode enc b = some "IMPLEMENTATION") ∧
          (isABI enc implementationAbi b = false →
            getProxyStatus decode enc b = some "DELEGATECALL"))) ∧
      ((∀ op ∈ decode b, op.name ≠ "DELEGATECALL") →
        getProxyStatus decode enc b = none) := by
  have hdcTrue : (∃ op ∈ decode b, op.name = "DELEGATECALL") →
      ((decode b).find? (fun item => item.name == "DELEGATECALL")).isSome = true := by
    intro hdc
    rw [List.find?_isSome]
    rcases hdc with ⟨op, hop, hname⟩
    exact ⟨op, hop, by simpa using hname⟩
  constructor
  · intro hdc
    constructor
    · intro p hp
      unfold getProxyStatus
      rw [if_pos (hdcTrue hdc), hp]
    · intro hnp
      have hfp : (decode b).find? (fun item => item.name == "PUSH20") = none := by
        cases hfind : (decode b).find? (fun item => item.name == "PUSH20") with
        | none => rfl
        | some op =>
          have hmem := List.mem_of_find?_eq_some hfind
          have hp := List.find?_some hfind
          exact absurd (by simpa using hp) (hnp op hmem)
      constructor
      · intro himpl
        unfold getProxyStatus
        rw [if_pos (hdcTrue hdc), hfp, if_pos himpl]
      · intro himpl
        unfold getProxyStatus
        rw [if_pos (hdcTrue hdc), hfp, if_neg (by simp [himpl])]
  · intro hndc
    have hfd : ((decode b).find? (fun item => item.name == "DELEGATECALL")).isSome
        = false := by
      cases hfind : (decode b).find? (fun item => item.name == "DELEGATECALL") with
      | none => rfl
      | some op =>
        have hmem := List.mem_of_find?_eq_some hfind
        have hp := List.find?_some hfind
        exact absurd (by simpa using hp) (hndc op hmem)
    unfold getProxyStatus
    rw [if_neg (by simp [hfd])]

/-- Witness for C4, hitting the literal-target branch on a stream with a
`DELEGATECALL` and a `PUSH20` of twenty `aa` bytes (spec §8's example). -/
theorem c4_witness :
    (∃ op ∈ [Opcode.mk "PUSH20" "aaaaaaaaaaaaaaaaaaaaaaaaaaaaaaaaaaaaaaaa",
        Opcode.mk "DELEGATECALL" ""], op.name = "DELEGATECALL") ∧
      getProxyStatus
          (fun _ => [Opcode.mk "PUSH20" "aaaaaaaaaaaaaaaaaaaaaaaaaaaaaaaaaaaaaaaa",
            Opcode.mk "DELEGATECALL" ""]) encW "6001"
        = some ("DELEGATECALL to 0x" ++ "aaaaaaaaaaaaaaaaaaaaaaaaaaaaaaaaaaaaaaaa") :=
  ⟨by decide,
    ((c4_getProxyStatus_machine
        (fun _ => [Opcode.mk "PUSH20" "aaaaaaaaaaaaaaaaaaaaaaaaaaaaaaaaaaaaaaaa",
          Opcode.mk "DELEGATECALL" ""]) encW "6001").1 (by decide)).1
      (Opcode.mk "PUSH20" "aaaaaaaaaaaaaaaaaaaaaaaaaaaaaaaaaaaaaaaa") (by decide)⟩

/-- `'0x' + '0'.repeat(40)` from `getProxyAddress`. -/
def zeroAddressStr : String := "0x0000000000000000000000000000000000000000"

/-- The all-ones 20-byte address (`0xfff…f`) named by the spec. -/
def allOnesAddr : String := "0xffffffffffffffffffffffffffffffffffffffff"

/-- The probe validator `getAddress` defined inside `getProxyAddress`
(src/index.js lines 106-119).  A non-string RPC response is modelled as
`none`; a thrown error is the result `none`; JS `slice(-40)` keeps the last
40 characters of a 66-character storage word. -/
def getAddress (value : Option String) : Option String :=
  match value with
  | none => none
  | some v =>
    if v = "0x" then none
    else
      let address :=
        if v.length = 66 then "0x" ++ String.mk (v.data.drop (v.data.length - 40))
        else v
      if address = zeroAddressStr then none else some address

/-- The acceptance predicate claim C8 states, following the spec's words: a
probe response qualifies iff it decodes to a plausible 20-byte address
(`0x` + 40 lowercase hex digits, taking the low 20 bytes of a 32-byte
word) that is neither zero nor the all-ones `0xfff…f`. -/
def specValidTarget (value : Option String) : Bool :=
  match value with
  | none => false
  | some v =>
    let a :=
      if v.length = 66 then "0x" ++ String.mk (v.data.drop (v.data.length - 40))
      else v
    (a.length == 42) && ("0x".data.isPrefixOf a.data)
      && ((a.data.drop 2).all isLowerHex)
      && !(a == zeroAddressStr) && !(a == allOnesAddr)

/-- Counterexample to C8 as stated: the code's validator never rejects the
all-ones address — `getAddress` accepts `0xfff…f` as a candidate target,
while the claim demands that a non-`0xfff…f` check disqualify it. -/
theorem c8_counterexample :
    getAddress (some allOnesAddr) = some allOnesAddr ∧
      specValidTarget (some allOnesAddr) = false := by
  constructor <;> decide

/-- **C8 (amended)**: a probe response is accepted as a candidate target
iff it is a string other than `'0x'` whose decoded form — the last 20
bytes when the response is a 66-character storage word, the string itself
otherwise — is not the zero address; and the accepted candidate is exactly
that decoded form.  No all-ones (`0xfff…f`) check and no hex
well-formedness check is performed; a rejected probe yields `none` (the
probe merely drops out) rather than an exception. -/
theorem c8_getAddress_amended (v : Option String) :
    ((getAddress v).isSome = true ↔
      ∃ s, v = some s ∧ s ≠ "0x" ∧
        (if s.length = 66 then "0x" ++ String.mk (s.data.drop (s.data.length - 40))
          else s) ≠ zeroAddressStr) ∧
    (∀ a, getAddress v = some a →
      ∃ s, v = some s ∧
        a = (if s.length = 66 then "0x" ++ String.mk (s.data.drop (s.data.length - 40))
          else s)) := by
  cases v with
  | none => simp [getAddress]
  | some s =>
    by_cases h0 : s = "0x"
    · subst h0
      simp [getAddress]
    · by_cases hz : (if s.length = 66
          then "0x" ++ String.mk (s.data.drop (s.data.length - 40)) else s)
          = zeroAddressStr
      · simp [getAddress, h0, hz]
      · simp [getAddress, h0, hz]

/-- Witness for the amended C8: a 42-character response that is neither
`'0x'` nor zero is accepted verbatim. -/
theorem c8_witness :
    getAddress (some "0xffffffffffffffffffffffffffffffffffffffff") = some allOnesAddr ∧
      ∃ s, (some "0xffffffffffffffffffffffffffffffffffffffff" : Option String) = some s ∧
        s ≠ "0x" ∧
        (if s.length = 66 then "0x" ++ String.mk (s.data.drop (s.data.length - 40))
          else s) ≠ zeroAddressStr :=
  ⟨by decide,
    (c8_getAddress_amended (some "0xffffffffffffffffffffffffffffffffffffffff")).1.mp
      (by decide)⟩

/-- The 160-bit Ethereum address space. -/
abbrev Address := Fin (2 ^ 160)

/-- Modelled from the spec: the chained resolver of `getErcByNode` is not
among the sources under src/ (the spec alone, §4.7 and §6, describes it).
Following §4.7: resolving at an address stops when the address is already
in the visited set (the membership test preventing infinite loops on proxy
cycles), otherwise records the address and follows the proxy target
discovered from its fetched bytecode.  `fuel` bounds the number of steps;
`none` signals exhaustion and is shown unreachable below. -/
def resolveChain (fetch : Address → String) (target : String → Option Address) :
    Nat → Address → List Address → Option (List Address)
  | 0, _, _ => none
  | fuel + 1, addr, visited =>
    if addr ∈ visited then some visited
    else
      match target (fetch addr) with
      | none => some (visited ++ [addr])
      | some next => resolveChain fetch target fuel next (visited ++ [addr])

/-- Modelled from the spec: `getErcByNode(address, rpcUrl[, bytecode])`
resolves the proxy chain from the starting address through the RPC
collaborator `fetch` and the proxy-target discovery `target`, concatenates
all visited bytecodes, and runs the Bytecode Classifier once over the
concatenation (§4.7).  The outer `Option` is `none` only on fuel
exhaustion, which theorem `c9_getErcByNode_terminates` rules out. -/
def getErcByNode (fetch : Address → String) (target : String → Option Address)
    (decode : String → List Opcode) (enc : SigEncoder) (reg : List StdSpec)
    (addr : Address) : Option (Option String) :=
  (resolveChain fetch target (2 ^ 160 + 1) addr []).map
    (fun chain => getErcByBytecode decode enc reg (String.join (chain.map fetch)))

theorem resolveChain_isSome (fetch : Address → String)
    (target : String → Option Address) :
    ∀ (fuel : Nat) (addr : Address) (visited : List Address),
      visited.Nodup → 2 ^ 160 + 1 ≤ fuel + visited.length →
      (resolveChain fetch target fuel addr visited).isSome = true := by
  intro fuel
  induction fuel with
  | zero =>
    intro addr visited hnd hlen
    exfalso
    have hb : visited.length ≤ Fintype.card Address := List.Nodup.length_le_card hnd
    have hcard : Fintype.card Address = 2 ^ 160 := Fintype.card_fin _
    omega
  | succ fuel ih =>
    intro addr visited hnd hlen
    rw [resolveChain]
    by_cases hmem : addr ∈ visited
    · rw [if_pos hmem]
      rfl
    · rw [if_neg hmem]
      cases hT : target (fetch addr) with
      | none => rfl
      | some next =>
        apply ih next (visited ++ [addr])
        · exact List.Nodup.append hnd (List.nodup_singleton addr)
            (List.disjoint_singleton.mpr hmem)
        · rw [List.length_append]
          simp only [List.length_singleton]
          omega

/-- **C9**: the chained resolution `getErcByNode` terminates (returns a
result rather than exhausting its step bound) for every fetch collaborator,
every proxy-target graph — cyclic chains included — and every starting
address: the visited-set membership test keeps the visited list
duplicate-free, so at most one step per distinct address is ever taken. -/
theorem c9_getErcByNode_terminates (fetch : Address → String)
    (target : String → Option Address) (decode : String → List Opcode)
    (enc : SigEncoder) (reg : List StdSpec) (addr : Address) :
    (getErcByNode fetch target decode enc reg addr).isSome = true := by
  unfold getErcByNode
  have h := resolveChain_isSome fetch target (2 ^ 160 + 1) addr []
    List.nodup_nil (by simp)
  rcases Option.isSome_iff_exists.mp h with ⟨chain, hchain⟩
  rw [hchain]
  rfl

/-- `getSigs(abi)` from src/unnamed/part_000 lines 14-20 (historical
extractor variant): identical to the src/index.js extractor except that
only the `0x` prefix is removed — there is no `.replace(/^0+/, '')`, so
leading zero nibbles are kept. -/
def getSigsLegacy (enc : SigEncoder) (abi : List AbiItem) : List String :=
  ((abi.filter (fun item => item.type == "function")).map
      (fun item => String.mk (stripFirst "0x".data (enc.encodeFunctionSignature item).data)))
    ++ ((abi.filter (fun item => item.type == "event")).map
      (fun item => String.mk (stripFirst "0x".data (enc.encodeEventSignature item).data)))

/-- A concrete encoder for the C6 counterexample: it returns the real
web3 selector of ERC-1155's `balanceOf(address,uint256)`, `0x00fdd58e`,
whose hex encoding begins with a zero byte. -/
def encC6 : SigEncoder :=
  ⟨fun _ => "0x00fdd58e", fun _ => "0x0ab1"⟩

/-- Counterexample to C6 as stated: the claim also covers the extractor of
src/unnamed/part_000 (`getSigsLegacy`), which strips only the `0x` prefix.
On an ABI holding `balanceOf(address,uint256)` — whose selector is
`0x00fdd58e` — that variant emits the selector `00fdd58e`, which carries a
leading zero nibble, contradicting "every selector produced by getSigs(a)
carries ... no leading zero nibbles". -/
theorem c6_counterexample :
    getSigsLegacy encC6 [AbiItem.mk "function" "balanceOf(address,uint256)"]
        = ["00fdd58e"] ∧
      ∃ sel ∈ getSigsLegacy encC6 [AbiItem.mk "function" "balanceOf(address,uint256)"],
        sel.data.head? = some '0' := by
  constructor
  · rfl
  · exact ⟨"00fdd58e", by decide, rfl⟩
